import Mathlib

/-! Shallow embedding of the route-optimization core of the
harrisonburg-explorer repository: the TSP algorithm abstraction
(`algorithms/base.py`), the nearest-neighbor solver
(`algorithms/nearest_neighbor.py`), the genetic-algorithm solver
(`algorithms/genetic_algorithm.py`), the algorithm factory
(`algorithms/factory.py`) and the haversine distance service
(`services/distance_service.py`).

Modelling conventions: Python floats are modelled as exact rationals in the
solver layer (which only adds and compares the numbers handed to it) and as
real numbers in the trigonometric haversine computation; Python lists are Lean
lists; Python list indexing, which can raise `IndexError`, is modelled in the
`Option` monad (`none` = the operation raises); the `float('inf')` starting
minimum is an `Option ℚ` that is `none` until a finite candidate is seen; a
Python `dict` of constraints is an association list from strings to Python
values. -/

/-- Place record from `models/domain.py` (the fields the core reads). -/
structure Place where
  id : String
  name : String
  latitude : ℝ
  longitude : ℝ

/-- Route record from `models/domain.py` (the fields the solvers produce). -/
structure Route where
  places_order : List String
  total_distance : ℚ
  algorithm_used : String
deriving DecidableEq, Repr

/-- Python list read `l[i]`: a negative index counts from the end, an
out-of-range index raises `IndexError` (modelled as `none`). -/
def pyGetIdx {α : Type} (l : List α) (i : Int) : Option α :=
  let j : Int := if i < 0 then i + l.length else i
  if j < 0 then none else l.get? j.toNat

/-- Python list write `l[i] = a`, with the same index semantics as `pyGetIdx`. -/
def pySetIdx {α : Type} (l : List α) (i : Int) (a : α) : Option (List α) :=
  let j : Int := if i < 0 then i + l.length else i
  if 0 ≤ j ∧ j.toNat < l.length then some (l.set j.toNat a) else none


/-- Values stored in a Python constraints dict. -/
inductive PyVal where
  | str (s : String)
  | bool (b : Bool)
  | num (q : ℚ)
deriving DecidableEq, Repr

/-- Python truthiness of a `PyVal`. -/
def PyVal.truthy : PyVal → Bool
  | PyVal.str s => !s.isEmpty
  | PyVal.bool b => b
  | PyVal.num q => decide (q ≠ 0)

/-- Python `d.get(key, dflt)` on an association-list model of a dict. -/
def dict_get (d : List (String × PyVal)) (key : String) (dflt : PyVal) : PyVal :=
  ((d.find? (fun p => p.1 == key)).map Prod.snd).getD dflt

/-- Truthiness of the Python guard `constraints and
constraints.get('return_to_start', True)` on line 31 of
`nearest_neighbor.py`: `None` and the empty dict are falsy, so the
`return_to_start` default is consulted only for a non-empty dict. -/
def nn_return_to_start (constraints : Option (List (String × PyVal))) : Bool :=
  match constraints with
  | none => false
  | some d =>
      if d.isEmpty then false
      else (dict_get d "return_to_start" (PyVal.bool true)).truthy

/-- Comparison `x < min_distance` where the running minimum is either still
`float('inf')` (modelled as `none`, every finite value is below it) or a
finite value seen so far. -/
def ltMinDist (x : ℚ) (m : Option ℚ) : Bool :=
  match m with
  | none => true
  | some q => decide (x < q)

/-- One iteration of the scan loop of `_find_nearest_unvisited`
(`nearest_neighbor.py` lines 46-49): skip visited indices, otherwise compare
`matrix[current][i]` against the running minimum. -/
def fnuStep (current : Int) (matrix : List (List ℚ)) (visited : List Bool)
    (acc : Option ℚ × Int) (i : Nat) : Option (Option ℚ × Int) := do
  let vis ← pyGetIdx visited (i : Int)
  if vis then
    pure acc
  else
    let row ← pyGetIdx matrix current
    let d ← pyGetIdx row (i : Int)
    if ltMinDist d acc.1 then pure (some d, (i : Int)) else pure acc

/-- `NearestNeighborAlgorithm._find_nearest_unvisited`: scan all indices
`i < len(matrix)`, starting from `min_distance = float('inf')` and the `-1`
sentinel, and return the final `nearest_idx`. -/
def find_nearest_unvisited (current : Int) (matrix : List (List ℚ))
    (visited : List Bool) : Option Int := do
  let r ← (List.range matrix.length).foldlM (fnuStep current matrix visited)
    ((none : Option ℚ), (-1 : Int))
  pure r.2

/-- Loop state of `NearestNeighborAlgorithm.solve`: the `visited` flags, the
accumulated `route_order`, the `current` index and the running total. -/
structure NNState where
  visited : List Bool
  route_order : List Int
  current : Int
  total_distance : ℚ
deriving DecidableEq, Repr

/-- Initialization of `NearestNeighborAlgorithm.solve` (lines 15-21):
`start_idx = 0`, all-false `visited` of length `len(places)`, then
`visited[start_idx] = True` (an `IndexError` when `places` is empty). -/
def nnInit (places : List Place) : Option NNState := do
  let visited := List.replicate places.length false
  let visited ← pySetIdx visited 0 true
  pure (NNState.mk visited [(0 : Int)] 0 0)

/-- One iteration of the greedy loop of `solve` (lines 23-28): find the
nearest unvisited index, add the leg distance, append it to the order, mark it
visited and advance `current`. -/
def nnStep (matrix : List (List ℚ)) (st : NNState) (_ : Nat) : Option NNState := do
  let nearest ← find_nearest_unvisited st.current matrix st.visited
  let row ← pyGetIdx matrix st.current
  let d ← pyGetIdx row nearest
  let visited ← pySetIdx st.visited nearest true
  pure (NNState.mk visited (st.route_order ++ [nearest]) nearest (st.total_distance + d))

/-- State of the nearest-neighbor solver after its initialization followed by
`k` iterations of the greedy loop. -/
def nnIter (places : List Place) (matrix : List (List ℚ)) (k : Nat) :
    Option NNState := do
  let st0 ← nnInit places
  (List.range k).foldlM (nnStep matrix) st0

/-- List comprehension `[places[i].id for i in route_order]` of line 36 of
`nearest_neighbor.py`. -/
def routeIds (places : List Place) : List Int → Option (List String)
  | [] => some []
  | i :: rest => do
      let p ← pyGetIdx places i
      let tl ← routeIds places rest
      pure (p.id :: tl)

/-- `NearestNeighborAlgorithm.solve`: the greedy loop runs `len(places) - 1`
times, then the tour is closed when `constraints and
constraints.get('return_to_start', True)` is truthy, and the index order is
mapped to place identifiers. -/
def NearestNeighborAlgorithm.solve (places : List Place)
    (matrix : List (List ℚ)) (constraints : Option (List (String × PyVal))) :
    Option Route := do
  let st ← nnIter places matrix (places.length - 1)
  let st ←
    if nn_return_to_start constraints then do
      let row ← pyGetIdx matrix st.current
      let d ← pyGetIdx row 0
      pure (NNState.mk st.visited (st.route_order ++ [(0 : Int)]) st.current
        (st.total_distance + d))
    else
      pure st
  let ids ← routeIds places st.route_order
  pure (Route.mk ids st.total_distance "nearest_neighbor")

/-- `TSPAlgorithm.validate_input` (`base.py` lines 24-26). -/
def TSPAlgorithm.validate_input (places : List Place) : Bool :=
  decide (2 ≤ places.length)

/-- Python exceptions raised by the core. `attributeError` records the
attribute whose lookup failed; `unknownAlgorithm` models the `ValueError`
raised by the factory, whose f-string message interpolates the offending name
and the list of registered names (both recorded structurally here). -/
inductive PyErr where
  | valueError (msg : String)
  | attributeError (attr : String)
  | unknownAlgorithm (name : String) (available : List String)
deriving DecidableEq, Repr

/-- Configuration of `GeneticAlgorithm.__init__` (`genetic_algorithm.py`
lines 9-14), with the source defaults. -/
structure GeneticAlgorithm where
  population_size : Nat := 100
  generations : Nat := 500
  mutation_rate : ℚ := 2 / 100
  elite_size : Nat := 20
deriving DecidableEq, Repr

/-- Names of the methods defined in the body of class `GeneticAlgorithm`
(`genetic_algorithm.py`). -/
def GeneticAlgorithm.methodNames : List String :=
  ["__init__", "name", "description", "solve", "_create_initial_population",
   "_calculate_fitness", "_calculate_route_distance", "_tournament_selection",
   "_order_crossover", "_fill_remaining_positions", "_mutate"]

/-- Names of the methods defined in the body of class `TSPAlgorithm`
(`base.py`). -/
def TSPAlgorithm.methodNames : List String :=
  ["name", "solve", "description", "validate_input"]

/-- Attribute resolution for a `GeneticAlgorithm` instance: Python looks the
name up on the class and then on its base class; instances carry only the
four `__init__` data fields. -/
def GeneticAlgorithm.resolvesAttr (attr : String) : Bool :=
  GeneticAlgorithm.methodNames.contains attr
    || TSPAlgorithm.methodNames.contains attr

/-- `GeneticAlgorithm.solve` (`genetic_algorithm.py` lines 22-40): after the
`validate_input` check, line 39 evaluates `self._get_start_index(places,
constraints)`.  That attribute is not defined on `GeneticAlgorithm` or on
`TSPAlgorithm` (see `GeneticAlgorithm.methodNames` and
`TSPAlgorithm.methodNames`), so the lookup raises `AttributeError` before any
later line of the method can run; the embedding maps the post-validation
state to that error. -/
def GeneticAlgorithm.solve (_ga : GeneticAlgorithm) (places : List Place)
    (_matrix : List (List ℚ)) (_constraints : Option (List (String × PyVal))) :
    Except PyErr Route :=
  if ¬ TSPAlgorithm.validate_input places then
    Except.error (PyErr.valueError "Need at least 2 places for TSP")
  else if GeneticAlgorithm.resolvesAttr "_get_start_index" then
    Except.error (PyErr.valueError "unreachable: the attribute lookup fails")
  else
    Except.error (PyErr.attributeError "_get_start_index")

/-- Matrix read `matrix[route[i]][route[j]]` as used by the GA internals.
The GA only ever indexes with members of a permutation of `0..n-1` into an
n-by-n matrix, so the fall-through default of this total model is never
reached in the uses proved about below. -/
def matGetQ (matrix : List (List ℚ)) (i j : Int) : ℚ :=
  (((pyGetIdx matrix i).bind (fun row => pyGetIdx row j)).getD 0)

/-- `GeneticAlgorithm._calculate_route_distance` (lines 122-134): sum the
legs between consecutive entries of `route`, and close the loop with
`matrix[route[-1]][route[0]]` when `return_to_start` holds and the route has
more than one entry. -/
def calculate_route_distance (route : List Int) (matrix : List (List ℚ))
    (return_to_start : Bool) : ℚ :=
  let base := (List.range (route.length - 1)).foldl
    (fun acc i => acc + matGetQ matrix (route.getD i 0) (route.getD (i + 1) 0)) 0
  if return_to_start ∧ 1 < route.length then
    base + matGetQ matrix (route.getD (route.length - 1) 0) (route.getD 0 0)
  else base

/-- `GeneticAlgorithm._calculate_fitness` (lines 117-120): closed-loop
distance converted to `1 / (distance + 1)`. -/
def calculate_fitness (route : List Int) (matrix : List (List ℚ)) : ℚ :=
  1 / (calculate_route_distance route matrix true + 1)

/-- Fitness list of a population (`solve` lines 48-49). -/
def fitnessScores (population : List (List Int)) (matrix : List (List ℚ)) :
    List ℚ :=
  population.map (fun individual => calculate_fitness individual matrix)

/-- `elite_indices` of `solve` lines 55-56: index list sorted by descending
fitness (Python `sorted` is stable, as is `List.mergeSort`), truncated to
`elite_size`. -/
def elite_indices (fitness : List ℚ) (elite_size : Nat) : List Nat :=
  ((List.range fitness.length).mergeSort
    (fun i j => decide (fitness.getD j 0 ≤ fitness.getD i 0))).take elite_size

/-- One generation of the evolution loop of `solve` (lines 46-78): evaluate
fitness, copy the elite, extend with the offspring produced by the
tournament/crossover/mutation block (whose random draws make `offspring`
arbitrary here), and trim to `population_size`. -/
def generation_step (ga : GeneticAlgorithm) (population : List (List Int))
    (offspring : List (List Int)) (matrix : List (List ℚ)) : List (List Int) :=
  let fitness := fitnessScores population matrix
  let newPopulation :=
    (elite_indices fitness ga.elite_size).map (fun i => population.getD i [])
      ++ offspring
  newPopulation.take ga.population_size

/-- Python slice-assignment block of `_order_crossover` lines 160-165:
`child = [None] * len(src)` followed by `child[s:e] = src[s:e]`. -/
def segCopy : List Nat → Nat → Nat → List (Option Nat)
  | [], _, _ => []
  | a :: src, s, e =>
      (if s = 0 ∧ 0 < e then some a else none) :: segCopy src (s - 1) (e - 1)

/-- The `while parent[parent_idx] in child` advance of
`_fill_remaining_positions` (lines 180-181): the first position at or after
`pIdx` whose parent city is not already in `child`; `none` when the scan runs
past the end of `parent` (an `IndexError` in the source). -/
def skipUsed (parent : List Nat) (child : List (Option Nat)) (pIdx : Nat) :
    Option Nat :=
  match h : parent.get? pIdx with
  | none => none
  | some v =>
      if child.contains (some v) then skipUsed parent child (pIdx + 1) else some pIdx
termination_by parent.length - pIdx
decreasing_by
  have : pIdx < parent.length := List.get?_eq_some.1 h |>.1
  omega

/-- Position loop of `GeneticAlgorithm._fill_remaining_positions`
(lines 174-183), filling every `None` position of `child`, in order, with the
next parent city not already present in `child`. -/
def fillGo (parent : List Nat) (child : List (Option Nat)) (i pIdx : Nat) :
    Option (List (Option Nat)) :=
  if h : i < child.length then
    match child.get ⟨i, h⟩ with
    | some _ => fillGo parent child (i + 1) pIdx
    | none =>
        match skipUsed parent child pIdx with
        | none => none
        | some j =>
            match parent.get? j with
            | none => none
            | some v => fillGo parent (child.set i (some v)) (i + 1) (j + 1)
  else some child
termination_by child.length - i
decreasing_by
  · omega
  · simp only [List.length_set]; omega

/-- `GeneticAlgorithm._fill_remaining_positions`. -/
def fill_remaining_positions (child : List (Option Nat)) (parent : List Nat) :
    Option (List (Option Nat)) :=
  fillGo parent child 0 0

/-- Extraction of the all-integer child list after the fill (in the source
the mutated `child` list simply holds no `None` any more). -/
def extractFilled : List (Option Nat) → Option (List Nat)
  | [] => some []
  | none :: _ => none
  | some v :: rest => (extractFilled rest).map (fun tl => v :: tl)

/-- `GeneticAlgorithm._order_crossover` (lines 144-172) with the two sorted
cut points `cs < ce` drawn by `random.sample(range(len(p1_cities)), 2)` made
explicit parameters. -/
def order_crossover (parent1 parent2 : List Nat) (start_idx : Nat)
    (cs ce : Nat) : Option (List Nat × List Nat) :=
  let p1_cities := parent1.filter (fun c => c ≠ start_idx)
  let p2_cities := parent2.filter (fun c => c ≠ start_idx)
  if p1_cities.length < 2 then some (parent1, parent2)
  else do
    let child1 := segCopy p1_cities cs ce
    let child2 := segCopy p2_cities cs ce
    let filled1 ← fill_remaining_positions child1 p2_cities
    let filled2 ← fill_remaining_positions child2 p1_cities
    let r1 ← extractFilled filled1
    let r2 ← extractFilled filled2
    pure (start_idx :: r1, start_idx :: r2)

/-- Tags for the entries of the factory registry `AlgorithmFactory._algorithms`
(`factory.py` lines 9-12): which algorithm class a name maps to. -/
inductive AlgorithmClass where
  | nearestNeighborAlgorithm
  | geneticAlgorithm
deriving DecidableEq, Repr

/-- The registry mapping of `factory.py` lines 9-12. -/
def AlgorithmFactory.algorithms : List (String × AlgorithmClass) :=
  [("nearest_neighbor", AlgorithmClass.nearestNeighborAlgorithm),
   ("genetic", AlgorithmClass.geneticAlgorithm)]

/-- `AlgorithmFactory.create_algorithm` (lines 14-21): an unregistered name
raises `ValueError` whose message carries the name and the list of available
algorithm names; a registered name instantiates the mapped class. -/
def AlgorithmFactory.create_algorithm (name : String) :
    Except PyErr AlgorithmClass :=
  match AlgorithmFactory.algorithms.lookup name with
  | none =>
      Except.error (PyErr.unknownAlgorithm name
        (AlgorithmFactory.algorithms.map Prod.fst))
  | some c => Except.ok c

/-- Default `Place` used for the total model of in-range list reads of the
distance service (never reached for the indices proved about). -/
def defaultPlace : Place := Place.mk "" "" 0 0

/-- `DistanceService._haversine_distance` (`distance_service.py` lines
36-53): degrees are converted to radians, the haversine formula is applied,
and the central angle is scaled by the earth radius 6371 km.  `math.radians`,
`math.sin`, `math.cos`, `math.asin` and `math.sqrt` are modelled by their
exact real counterparts. -/
noncomputable def haversine_distance (lat1 lon1 lat2 lon2 : ℝ) : ℝ :=
  let rlat1 := lat1 * (Real.pi / 180)
  let rlon1 := lon1 * (Real.pi / 180)
  let rlat2 := lat2 * (Real.pi / 180)
  let rlon2 := lon2 * (Real.pi / 180)
  let dlat := rlat2 - rlat1
  let dlon := rlon2 - rlon1
  let a := Real.sin (dlat / 2) ^ 2
    + Real.cos rlat1 * Real.cos rlat2 * Real.sin (dlon / 2) ^ 2
  let c := 2 * Real.arcsin (Real.sqrt a)
  c * 6371

/-- `DistanceService.get_distance_matrix` (lines 13-34) in its default
haversine branch: an n-by-n matrix initialized to `0.0` whose off-diagonal
entries are overwritten with the haversine distance of the two places. -/
noncomputable def get_distance_matrix (places : List Place) :
    List (List ℝ) :=
  (List.range places.length).map (fun i =>
    (List.range places.length).map (fun j =>
      if i = j then 0
      else
        haversine_distance (places.getD i defaultPlace).latitude
          (places.getD i defaultPlace).longitude
          (places.getD j defaultPlace).latitude
          (places.getD j defaultPlace).longitude))

/-- Real matrix read used to state properties of `get_distance_matrix`. -/
def matGetR (matrix : List (List ℝ)) (i j : Nat) : ℝ :=
  (matrix.getD i []).getD j 0

/-- Concrete test place. -/
def placeA : Place := Place.mk "a" "A" 0 0

/-- Concrete test place. -/
def placeB : Place := Place.mk "b" "B" 0 90

/-- Concrete test place. -/
def placeC : Place := Place.mk "c" "C" 45 45

/-- A `GeneticAlgorithm` instance built with the `__init__` defaults. -/
def defaultGA : GeneticAlgorithm := {}

/-- Invariant of the greedy loop of `NearestNeighborAlgorithm.solve` after
`k` iterations on an n-place input: the `visited` flags keep their length,
`current` is an in-range index, and `route_order` is a duplicate-free list of
`k + 1` in-range indices that starts at the hardcoded `start_idx = 0`, ends at
`current`, and marks exactly the visited flags. -/
def NNInv (n k : Nat) (st : NNState) : Prop :=
  st.visited.length = n
    ∧ (∃ c : Nat, st.current = (c : Int) ∧ c < n)
    ∧ st.route_order.length = k + 1
    ∧ (∀ x ∈ st.route_order, ∃ j : Nat, x = (j : Int) ∧ j < n)
    ∧ st.route_order.Nodup
    ∧ st.route_order.head? = some 0
    ∧ st.route_order.getLast? = some st.current
    ∧ (∀ j : Nat, j < n →
        (st.visited.get? j = some true ↔ (j : Int) ∈ st.route_order))

/-! ### Helper lemmas -/

theorem pyGetIdx_ofNat {α : Type} (l : List α) (i : Nat) :
    pyGetIdx l (i : Int) = l.get? i := by
  simp only [pyGetIdx]
  rw [if_neg (by omega : ¬ ((i : Int) < 0)), if_neg (by omega : ¬ ((i : Int) < 0))]
  simp

theorem pySetIdx_ofNat {α : Type} (l : List α) (i : Nat) (a : α)
    (h : i < l.length) : pySetIdx l (i : Int) a = some (l.set i a) := by
  simp only [pySetIdx]
  rw [if_neg (by omega : ¬ ((i : Int) < 0))]
  rw [if_pos]
  · simp
  · exact ⟨by omega, by simpa using h⟩

/-! ### Claim C1: `GeneticAlgorithm.solve` raises `AttributeError` -/

/-- C1: for every list of at least 2 places and every distance matrix and
constraints mapping, `GeneticAlgorithm.solve` raises an `AttributeError` and
never returns a `Route`: immediately after the input-size check it evaluates
`self._get_start_index` (and would next evaluate
`self._should_return_to_start`), and neither attribute is among the methods
defined in `GeneticAlgorithm` or its base class `TSPAlgorithm`. -/
theorem ga_solve_raises_attribute_error (ga : GeneticAlgorithm)
    (places : List Place) (matrix : List (List ℚ))
    (constraints : Option (List (String × PyVal)))
    (h : 2 ≤ places.length) :
    GeneticAlgorithm.solve ga places matrix constraints
        = Except.error (PyErr.attributeError "_get_start_index")
      ∧ (∀ r : Route,
          GeneticAlgorithm.solve ga places matrix constraints ≠ Except.ok r)
      ∧ GeneticAlgorithm.resolvesAttr "_get_start_index" = false
      ∧ GeneticAlgorithm.resolvesAttr "_should_return_to_start" = false := by
  have hval : TSPAlgorithm.validate_input places = true := by
    simpa [TSPAlgorithm.validate_input] using h
  have hres : GeneticAlgorithm.resolvesAttr "_get_start_index" = false := by
    decide
  have h1 : GeneticAlgorithm.solve ga places matrix constraints
      = Except.error (PyErr.attributeError "_get_start_index") := by
    simp [GeneticAlgorithm.solve, hval, hres]
  refine ⟨h1, ?_, hres, by decide⟩
  intro r hr
  rw [h1] at hr
  exact Except.noConfusion hr

/-- Witness for C1 at a concrete two-place input. -/
theorem ga_solve_raises_attribute_error_witness :
    2 ≤ ([placeA, placeB] : List Place).length
      ∧ (GeneticAlgorithm.solve defaultGA [placeA, placeB] [[0, 5], [5, 0]] none
            = Except.error (PyErr.attributeError "_get_start_index")
          ∧ (∀ r : Route,
              GeneticAlgorithm.solve defaultGA [placeA, placeB] [[0, 5], [5, 0]]
                none ≠ Except.ok r)
          ∧ GeneticAlgorithm.resolvesAttr "_get_start_index" = false
          ∧ GeneticAlgorithm.resolvesAttr "_should_return_to_start" = false) :=
  ⟨by decide, ga_solve_raises_attribute_error defaultGA [placeA, placeB]
    [[0, 5], [5, 0]] none (by decide)⟩

/-! ### Claim C2: the start-location constraint is ignored -/

/-- C2 (divergence witness): with two places `a` (index 0) and `b` (index 1)
and `constraints = {'start_location': 'b'}`, `NearestNeighborAlgorithm.solve`
still starts at index 0 — the returned order is `['a', 'b', 'a']`, not a route
beginning with `'b'` as the claim requires: the source hardcodes
`start_idx = 0` and never reads `constraints['start_location']`. -/
theorem nn_solve_ignores_start_location :
    NearestNeighborAlgorithm.solve [placeA, placeB] [[0, 5], [5, 0]]
        (some [("start_location", PyVal.str "b")])
      = some (Route.mk ["a", "b", "a"] 10 "nearest_neighbor") := by
  simp [NearestNeighborAlgorithm.solve, nnIter, nnInit, nnStep,
    find_nearest_unvisited, fnuStep, pyGetIdx, pySetIdx, nn_return_to_start,
    dict_get, PyVal.truthy, List.range_succ, placeA, placeB, routeIds,
    ltMinDist]
  norm_num

/-! ### Claim C3: `return_to_start` does not default to true for `None` -/

/-- C3 (divergence witness): with `constraints = None` the guard
`constraints and constraints.get('return_to_start', True)` is falsy, so the
tour is left open: for two places the returned order is `['a', 'b']` with
distance 5 and no closing leg, although the claim says an absent constraints
mapping closes the tour. -/
theorem nn_solve_none_constraints_leaves_tour_open :
    nn_return_to_start none = false
      ∧ NearestNeighborAlgorithm.solve [placeA, placeB] [[0, 5], [5, 0]] none
          = some (Route.mk ["a", "b"] 5 "nearest_neighbor") := by
  refine ⟨rfl, ?_⟩
  simp [NearestNeighborAlgorithm.solve, nnIter, nnInit, nnStep,
    find_nearest_unvisited, fnuStep, pyGetIdx, pySetIdx, nn_return_to_start,
    dict_get, PyVal.truthy, List.range_succ, placeA, placeB, routeIds,
    ltMinDist]

/-! ### Claim C4: the under-2-places check -/

/-- C4 (divergence witness): for a single place, `GeneticAlgorithm.solve`
does fail with the `InvalidInput` `ValueError`, but
`NearestNeighborAlgorithm.solve` performs no validation at all and returns a
one-stop route instead of failing. -/
theorem solve_single_place_validation :
    GeneticAlgorithm.solve defaultGA [placeA] [[0]] none
        = Except.error (PyErr.valueError "Need at least 2 places for TSP")
      ∧ NearestNeighborAlgorithm.solve [placeA] [[0]] none
          = some (Route.mk ["a"] 0 "nearest_neighbor") := by
  constructor
  · rfl
  · simp [NearestNeighborAlgorithm.solve, nnIter, nnInit, nnStep,
      find_nearest_unvisited, fnuStep, pyGetIdx, pySetIdx, nn_return_to_start,
      dict_get, PyVal.truthy, List.range_succ, placeA, routeIds, ltMinDist]

/-! ### Claim C8: the algorithm factory -/

/-- C8: for every name not present in the registry mapping,
`AlgorithmFactory.create_algorithm` fails with the unknown-algorithm error
carrying the offending name and the full list of registered names (never a
silent default), and for every registered name it returns an instance of the
mapped algorithm class. -/
theorem factory_create_algorithm_spec (name : String) :
    (AlgorithmFactory.algorithms.lookup name = none →
        AlgorithmFactory.create_algorithm name
          = Except.error (PyErr.unknownAlgorithm name
              ["nearest_neighbor", "genetic"]))
      ∧ (∀ c, AlgorithmFactory.algorithms.lookup name = some c →
          AlgorithmFactory.create_algorithm name = Except.ok c) := by
  constructor
  · intro h
    simp only [AlgorithmFactory.create_algorithm, h]
    rfl
  · intro c h
    simp only [AlgorithmFactory.create_algorithm, h]

/-- Witness for C8: an unregistered name errors with the available list, and
both registered names instantiate their classes. -/
theorem factory_create_algorithm_spec_witness :
    (AlgorithmFactory.algorithms.lookup "bogus" = none
        ∧ AlgorithmFactory.create_algorithm "bogus"
            = Except.error (PyErr.unknownAlgorithm "bogus"
                ["nearest_neighbor", "genetic"]))
      ∧ (AlgorithmFactory.algorithms.lookup "genetic"
            = some AlgorithmClass.geneticAlgorithm
          ∧ AlgorithmFactory.create_algorithm "genetic"
              = Except.ok AlgorithmClass.geneticAlgorithm) :=
  ⟨⟨by decide, (factory_create_algorithm_spec "bogus").1 (by decide)⟩,
   ⟨by decide, (factory_create_algorithm_spec "genetic").2
      AlgorithmClass.geneticAlgorithm (by decide)⟩⟩

/-! ### Claim C9: haversine matrix diagonal and symmetry -/

theorem haversine_distance_symm (lat1 lon1 lat2 lon2 : ℝ) :
    haversine_distance lat1 lon1 lat2 lon2
      = haversine_distance lat2 lon2 lat1 lon1 := by
  have key : ∀ x y : ℝ, Real.sin ((x - y) / 2) ^ 2 = Real.sin ((y - x) / 2) ^ 2 := by
    intro x y
    rw [show (x - y) / 2 = -((y - x) / 2) by ring, Real.sin_neg]
    ring
  simp only [haversine_distance]
  rw [key (lat2 * (Real.pi / 180)) (lat1 * (Real.pi / 180)),
    key (lon2 * (Real.pi / 180)) (lon1 * (Real.pi / 180)),
    mul_comm (Real.cos (lat1 * (Real.pi / 180))) (Real.cos (lat2 * (Real.pi / 180)))]

theorem get_distance_matrix_entry (places : List Place) (i j : Nat)
    (hi : i < places.length) (hj : j < places.length) :
    matGetR (get_distance_matrix places) i j
      = if i = j then 0
        else haversine_distance (places.getD i defaultPlace).latitude
          (places.getD i defaultPlace).longitude
          (places.getD j defaultPlace).latitude
          (places.getD j defaultPlace).longitude := by
  have hi' : i < (List.range places.length).length := by simpa using hi
  have hi'' : i < ((List.range places.length).map (fun i =>
      (List.range places.length).map (fun j =>
        if i = j then (0 : ℝ)
        else haversine_distance (places.getD i defaultPlace).latitude
          (places.getD i defaultPlace).longitude
          (places.getD j defaultPlace).latitude
          (places.getD j defaultPlace).longitude))).length := by
    simpa using hi
  simp only [matGetR, get_distance_matrix]
  rw [List.getD_eq_get _ _ hi'', List.get_map]
  have hj' : j < (List.range places.length).length := by simpa using hj
  have hj'' : j < ((List.range places.length).map (fun k =>
      if (List.range places.length).get ⟨i, hi'⟩ = k then (0 : ℝ)
      else haversine_distance
        (places.getD ((List.range places.length).get ⟨i, hi'⟩) defaultPlace).latitude
        (places.getD ((List.range places.length).get ⟨i, hi'⟩) defaultPlace).longitude
        (places.getD k defaultPlace).latitude
        (places.getD k defaultPlace).longitude)).length := by
    simpa using hj
  rw [List.getD_eq_get _ _ hj'', List.get_map]
  simp [List.get_range]

/-- C9: for every list of places with in-range coordinates, the matrix built
by the haversine branch of `DistanceService.get_distance_matrix` has an
exactly zero diagonal and is exactly symmetric (so in particular symmetric
within any relative tolerance). -/
theorem distance_matrix_diag_and_symm (places : List Place) (i j : Nat)
    (hi : i < places.length) (hj : j < places.length)
    (hrange : ∀ p ∈ places, -90 ≤ p.latitude ∧ p.latitude ≤ 90
      ∧ -180 ≤ p.longitude ∧ p.longitude ≤ 180) :
    matGetR (get_distance_matrix places) i i = 0
      ∧ matGetR (get_distance_matrix places) i j
          = matGetR (get_distance_matrix places) j i := by
  constructor
  · rw [get_distance_matrix_entry places i i hi hi]
    simp
  · rw [get_distance_matrix_entry places i j hi hj,
      get_distance_matrix_entry places j i hj hi]
    by_cases hij : i = j
    · simp [hij]
    · rw [if_neg hij, if_neg (Ne.symm hij)]
      exact haversine_distance_symm _ _ _ _

/-- Witness for C9 on two concrete in-range places. -/
theorem distance_matrix_diag_and_symm_witness :
    ((0 : Nat) < ([placeA, placeB] : List Place).length
        ∧ (1 : Nat) < ([placeA, placeB] : List Place).length
        ∧ (∀ p ∈ ([placeA, placeB] : List Place),
            -90 ≤ p.latitude ∧ p.latitude ≤ 90
              ∧ -180 ≤ p.longitude ∧ p.longitude ≤ 180))
      ∧ (matGetR (get_distance_matrix [placeA, placeB]) 0 0 = 0
          ∧ matGetR (get_distance_matrix [placeA, placeB]) 0 1
              = matGetR (get_distance_matrix [placeA, placeB]) 1 0) :=
  ⟨⟨by decide, by decide, by
      intro p hp
      simp only [List.mem_cons, List.mem_singleton, List.not_mem_nil] at hp
      rcases hp with h | h | h
      · rw [h]; refine ⟨by norm_num [placeA], by norm_num [placeA],
          by norm_num [placeA], by norm_num [placeA]⟩
      · rw [h]; refine ⟨by norm_num [placeB], by norm_num [placeB],
          by norm_num [placeB], by norm_num [placeB]⟩
      · exact absurd h (by simp)⟩,
   distance_matrix_diag_and_symm [placeA, placeB] 0 1 (by decide) (by decide)
     (by
      intro p hp
      simp only [List.mem_cons, List.mem_singleton, List.not_mem_nil] at hp
      rcases hp with h | h | h
      · rw [h]; refine ⟨by norm_num [placeA], by norm_num [placeA],
          by norm_num [placeA], by norm_num [placeA]⟩
      · rw [h]; refine ⟨by norm_num [placeB], by norm_num [placeB],
          by norm_num [placeB], by norm_num [placeB]⟩
      · exact absurd h (by simp))⟩

/-! ### Claim C7: elitism makes the best fitness monotone -/

theorem fitnessScores_getD (population : List (List Int))
    (matrix : List (List ℚ)) (i : Nat) (h : i < population.length) :
    (fitnessScores population matrix).getD i 0
      = calculate_fitness (population.getD i []) matrix := by
  have h' : i < (fitnessScores population matrix).length := by
    simpa [fitnessScores] using h
  rw [List.getD_eq_getElem _ _ h']
  simp only [fitnessScores, List.getElem_map]
  rw [List.getD_eq_getElem _ _ h]

theorem elite_indices_head (fitness : List ℚ) (es : Nat)
    (h1 : 1 ≤ es) (hpos : 0 < fitness.length) :
    ∃ i0 rest, elite_indices fitness es = i0 :: rest
      ∧ i0 < fitness.length
      ∧ ∀ j, j < fitness.length → fitness.getD j 0 ≤ fitness.getD i0 0 := by
  have hperm := List.mergeSort_perm (List.range fitness.length)
    (fun i j => decide (fitness.getD j 0 ≤ fitness.getD i 0))
  have htrans : ∀ a b c : Nat,
      (fun i j => decide (fitness.getD j 0 ≤ fitness.getD i 0)) a b = true →
      (fun i j => decide (fitness.getD j 0 ≤ fitness.getD i 0)) b c = true →
      (fun i j => decide (fitness.getD j 0 ≤ fitness.getD i 0)) a c = true := by
    intro a b c hab hbc
    simp only [decide_eq_true_eq] at *
    exact le_trans hbc hab
  have htotal : ∀ a b : Nat,
      ((fun i j => decide (fitness.getD j 0 ≤ fitness.getD i 0)) a b
        || (fun i j => decide (fitness.getD j 0 ≤ fitness.getD i 0)) b a) = true := by
    intro a b
    simp only [Bool.or_eq_true, decide_eq_true_eq]
    exact le_total _ _
  have hpair := List.sorted_mergeSort htrans htotal (List.range fitness.length)
  have hlen : ((List.range fitness.length).mergeSort
      (fun i j => decide (fitness.getD j 0 ≤ fitness.getD i 0))).length
      = fitness.length := by
    rw [hperm.length_eq]; simp
  cases hms : (List.range fitness.length).mergeSort
      (fun i j => decide (fitness.getD j 0 ≤ fitness.getD i 0)) with
  | nil => rw [hms] at hlen; simp at hlen; omega
  | cons i0 rest =>
    rw [hms] at hpair hperm
    have hhead : ∀ j ∈ rest, fitness.getD j 0 ≤ fitness.getD i0 0 := by
      intro j hj
      have := (List.pairwise_cons.1 hpair).1 j hj
      simpa using this
    have hi0 : i0 < fitness.length := by
      have : i0 ∈ List.range fitness.length :=
        hperm.subset (List.mem_cons_self _ _)
      simpa using this
    obtain ⟨es1, hes⟩ : ∃ es1, es = es1 + 1 := ⟨es - 1, by omega⟩
    refine ⟨i0, rest.take es1, ?_, hi0, ?_⟩
    · simp only [elite_indices, hms, hes, List.take_succ_cons]
    · intro j hj
      have hjmem : j ∈ i0 :: rest := hperm.mem_iff.2 (by simpa using hj)
      rcases List.mem_cons.1 hjmem with h | h
      · rw [h]
      · exact hhead j h

/-- C7: one generation of the evolution loop (fitness evaluation, elitism,
offspring generation, trim to `population_size`) never decreases the maximum
fitness of the population, for every outcome of the random draws (the
offspring list is universally quantified), provided
`1 ≤ elite_size ≤ population_size`. -/
theorem ga_generation_elite_monotone (ga : GeneticAlgorithm)
    (population offspring : List (List Int)) (matrix : List (List ℚ)) (q : ℚ)
    (hne : population ≠ [])
    (h1 : 1 ≤ ga.elite_size) (h2 : ga.elite_size ≤ ga.population_size)
    (hq : (fitnessScores population matrix).maximum = some q) :
    ∃ r : ℚ,
      (fitnessScores (generation_step ga population offspring matrix)
          matrix).maximum = some r ∧ q ≤ r := by
  have hlenf : (fitnessScores population matrix).length = population.length := by
    simp [fitnessScores]
  have hpos : 0 < (fitnessScores population matrix).length := by
    rw [hlenf]; exact List.length_pos.2 hne
  obtain ⟨i0, rest, helite, hi0, hmax⟩ :=
    elite_indices_head (fitnessScores population matrix) ga.elite_size h1 hpos
  have hqmem : q ∈ fitnessScores population matrix := List.maximum_mem hq
  have hqle : q ≤ (fitnessScores population matrix).getD i0 0 := by
    obtain ⟨k, hk, hkq⟩ := List.getElem_of_mem hqmem
    have hk' := hmax k hk
    rw [List.getD_eq_getElem _ _ hk, hkq] at hk'
    exact hk'
  have hstep : ∃ tl, generation_step ga population offspring matrix
      = population.getD i0 [] :: tl := by
    obtain ⟨ps1, hps⟩ : ∃ ps1, ga.population_size = ps1 + 1 :=
      ⟨ga.population_size - 1, by omega⟩
    refine ⟨((rest.map (fun i => population.getD i []) ++ offspring)).take ps1, ?_⟩
    simp only [generation_step, helite, hps, List.map_cons, List.cons_append,
      List.take_succ_cons]
  obtain ⟨tl, htl⟩ := hstep
  have hfe : calculate_fitness (population.getD i0 []) matrix
      ∈ fitnessScores (generation_step ga population offspring matrix) matrix := by
    rw [htl]
    simp [fitnessScores]
  have hnb : (fitnessScores (generation_step ga population offspring matrix)
      matrix).maximum ≠ ⊥ := by
    apply List.maximum_ne_bot_of_ne_nil
    rw [htl]
    simp [fitnessScores]
  obtain ⟨r, hr⟩ : ∃ r, (fitnessScores
      (generation_step ga population offspring matrix) matrix).maximum
      = some r := by
    cases hm : (fitnessScores (generation_step ga population offspring matrix)
        matrix).maximum with
    | bot => exact absurd hm hnb
    | coe r => exact ⟨r, rfl⟩
  refine ⟨r, hr, ?_⟩
  have h3 : calculate_fitness (population.getD i0 []) matrix ≤ r :=
    List.le_maximum_of_mem hfe hr
  have h4 : (fitnessScores population matrix).getD i0 0
      = calculate_fitness (population.getD i0 []) matrix :=
    fitnessScores_getD population matrix i0 (by omega)
  calc q ≤ (fitnessScores population matrix).getD i0 0 := hqle
    _ = calculate_fitness (population.getD i0 []) matrix := h4
    _ ≤ r := h3

/-- Witness for C7 on a one-individual population with the all-zero matrix. -/
theorem ga_generation_elite_monotone_witness :
    (([[0, 1]] : List (List Int)) ≠ []
        ∧ 1 ≤ (GeneticAlgorithm.mk 1 500 (2 / 100) 1).elite_size
        ∧ (GeneticAlgorithm.mk 1 500 (2 / 100) 1).elite_size
            ≤ (GeneticAlgorithm.mk 1 500 (2 / 100) 1).population_size
        ∧ (fitnessScores [[0, 1]] [[0, 0], [0, 0]]).maximum = some 1)
      ∧ ∃ r : ℚ,
          (fitnessScores
              (generation_step (GeneticAlgorithm.mk 1 500 (2 / 100) 1)
                [[0, 1]] [] [[0, 0], [0, 0]]) [[0, 0], [0, 0]]).maximum
            = some r ∧ 1 ≤ r :=
  ⟨⟨by decide, by decide, by decide, by
      simp [fitnessScores, calculate_fitness, calculate_route_distance,
        matGetQ, pyGetIdx, List.range_succ, List.maximum_singleton]
      rfl⟩,
   ga_generation_elite_monotone (GeneticAlgorithm.mk 1 500 (2 / 100) 1)
     [[0, 1]] [] [[0, 0], [0, 0]] 1 (by decide) (by decide) (by decide)
     (by
      simp [fitnessScores, calculate_fitness, calculate_route_distance,
        matGetQ, pyGetIdx, List.range_succ, List.maximum_singleton]
      rfl)⟩

/-! ### Claims C5 and C10: the greedy loop visits everything and cannot fail -/

theorem fnu_fold_spec (matrix : List (List ℚ)) (visited : List Bool)
    (c n : Nat) (hm : matrix.length = n)
    (hrow : ∀ row ∈ matrix, row.length = n)
    (hv : visited.length = n) (hc : c < n) :
    ∀ (is : List Nat) (acc : Option ℚ × Int),
      (∀ i ∈ is, i < n) →
      (acc.1 = none ∧ acc.2 = -1 ∨
        ∃ (k : Nat) (q : ℚ), acc.1 = some q ∧ acc.2 = (k : Int) ∧ k < n
          ∧ visited.get? k = some false) →
      ∃ acc', is.foldlM (fnuStep (c : Int) matrix visited) acc = some acc'
        ∧ (acc'.1 = none ∧ acc'.2 = -1 ∨
            ∃ (k : Nat) (q : ℚ), acc'.1 = some q ∧ acc'.2 = (k : Int) ∧ k < n
              ∧ visited.get? k = some false)
        ∧ (((∃ i ∈ is, visited.get? i = some false) ∨ acc.1 ≠ none) →
            acc'.1 ≠ none) := by
  intro is
  induction is with
  | nil =>
      intro acc _ hacc
      refine ⟨acc, rfl, hacc, ?_⟩
      rintro (⟨i, hi, _⟩ | h)
      · exact absurd hi (List.not_mem_nil i)
      · exact h
  | cons i rest ih =>
      intro acc hmem hacc
      have hi : i < n := hmem i (List.mem_cons_self _ _)
      have hrest : ∀ x ∈ rest, x < n := fun x hx => hmem x (List.mem_cons_of_mem _ hx)
      have hilen : i < visited.length := by omega
      obtain ⟨vis, hvis⟩ : ∃ b, pyGetIdx visited (i : Int) = some b := by
        rw [pyGetIdx_ofNat]
        exact ⟨visited.get ⟨i, hilen⟩, List.get?_eq_get hilen⟩
      have hvisf : visited.get? i = some vis := by
        rw [← pyGetIdx_ofNat]; exact hvis
      have hclen : c < matrix.length := by omega
      obtain ⟨row, hrowget⟩ : ∃ r, pyGetIdx matrix (c : Int) = some r := by
        rw [pyGetIdx_ofNat]
        exact ⟨matrix.get ⟨c, hclen⟩, List.get?_eq_get hclen⟩
      have hrowmem : row ∈ matrix := by
        rw [pyGetIdx_ofNat] at hrowget
        exact List.get?_mem hrowget
      have hrowlen : row.length = n := hrow row hrowmem
      have hdlen : i < row.length := by omega
      obtain ⟨d, hdget⟩ : ∃ x, pyGetIdx row (i : Int) = some x := by
        rw [pyGetIdx_ofNat]
        exact ⟨row.get ⟨i, hdlen⟩, List.get?_eq_get hdlen⟩
      rw [List.foldlM_cons]
      cases vis with
      | true =>
          have hstep : fnuStep (c : Int) matrix visited acc i = some acc := by
            simp [fnuStep, hvis]
          rw [hstep]
          obtain ⟨acc', h1, h2, h3⟩ := ih acc hrest hacc
          refine ⟨acc', h1, h2, ?_⟩
          rintro (⟨x, hx, hxf⟩ | hne)
          · rcases List.mem_cons.1 hx with h | h
            · subst h
              rw [hvisf] at hxf
              exact absurd hxf (by simp)
            · exact h3 (Or.inl ⟨x, h, hxf⟩)
          · exact h3 (Or.inr hne)
      | false =>
          cases hlt : ltMinDist d acc.1 with
          | true =>
              have hstep : fnuStep (c : Int) matrix visited acc i
                  = some (some d, (i : Int)) := by
                simp [fnuStep, hvis, hrowget, hdget, hlt]
              rw [hstep]
              obtain ⟨acc', h1, h2, h3⟩ :=
                ih (some d, (i : Int)) hrest (Or.inr ⟨i, d, rfl, rfl, hi, hvisf⟩)
              exact ⟨acc', h1, h2, fun _ => h3 (Or.inr (by simp))⟩
          | false =>
              have hne : acc.1 ≠ none := by
                intro h0
                rw [h0] at hlt
                simp [ltMinDist] at hlt
              have hstep : fnuStep (c : Int) matrix visited acc i = some acc := by
                simp [fnuStep, hvis, hrowget, hdget, hlt]
              rw [hstep]
              obtain ⟨acc', h1, h2, h3⟩ := ih acc hrest hacc
              exact ⟨acc', h1, h2, fun _ => h3 (Or.inr hne)⟩

theorem find_nearest_unvisited_spec (matrix : List (List ℚ))
    (visited : List Bool) (c n : Nat) (hm : matrix.length = n)
    (hrow : ∀ row ∈ matrix, row.length = n)
    (hv : visited.length = n) (hc : c < n)
    (hex : ∃ i, i < n ∧ visited.get? i = some false) :
    ∃ k : Nat, find_nearest_unvisited (c : Int) matrix visited = some (k : Int)
      ∧ k < n ∧ visited.get? k = some false := by
  obtain ⟨i, hi, hif⟩ := hex
  have hmem : ∀ x ∈ List.range matrix.length, x < n := by
    intro x hx
    rw [hm] at hx
    simpa using hx
  obtain ⟨acc', h1, h2, h3⟩ := fnu_fold_spec matrix visited c n hm hrow hv hc
    (List.range matrix.length) ((none : Option ℚ), (-1 : Int)) hmem
    (Or.inl ⟨rfl, rfl⟩)
  have hne : acc'.1 ≠ none := by
    apply h3
    left
    exact ⟨i, by simpa [hm] using hi, hif⟩
  rcases h2 with ⟨ha, _⟩ | ⟨k, q, _, hk2, hkn, hkf⟩
  · exact absurd ha hne
  · refine ⟨k, ?_, hkn, hkf⟩
    simp [find_nearest_unvisited, h1, hk2]

theorem nn_unvisited_exists (n k : Nat) (st : NNState)
    (hinv : NNInv n k st) (hk : k + 1 < n) :
    ∃ j, j < n ∧ st.visited.get? j = some false := by
  obtain ⟨hvlen, _, hrolen, hromem, hronodup, _, _, hiff⟩ := hinv
  by_contra hcon
  push_neg at hcon
  have hall : ∀ j, j < n → (j : Int) ∈ st.route_order := by
    intro j hj
    have hjlen : j < st.visited.length := by omega
    obtain ⟨b, hb⟩ : ∃ b, st.visited.get? j = some b :=
      ⟨st.visited.get ⟨j, hjlen⟩, List.get?_eq_get hjlen⟩
    cases b with
    | true => exact (hiff j hj).1 hb
    | false => exact absurd hb (hcon j hj)
  have hsub : ((List.range n).map (fun j : Nat => (j : Int))) ⊆ st.route_order := by
    intro x hx
    obtain ⟨j, hj, hjx⟩ := List.mem_map.1 hx
    rw [← hjx]
    exact hall j (by simpa using hj)
  have hinj : Function.Injective (fun j : Nat => (j : Int)) := by
    intro a b h
    simpa using h
  have hnodup : ((List.range n).map (fun j : Nat => (j : Int))).Nodup :=
    (List.nodup_range n).map hinj
  have hsp := hnodup.subperm hsub
  have hlen := hsp.length_le
  rw [hrolen, List.length_map, List.length_range] at hlen
  omega

theorem nnInit_spec (places : List Place) (n : Nat)
    (hn : places.length = n) (h1 : 1 ≤ n) :
    nnInit places
        = some (NNState.mk ((List.replicate n false).set 0 true) [(0 : Int)] 0 0)
      ∧ NNInv n 0 (NNState.mk ((List.replicate n false).set 0 true)
          [(0 : Int)] 0 0) := by
  constructor
  · have hlen : (0 : Nat) < (List.replicate places.length false).length := by
      simp; omega
    have hset := pySetIdx_ofNat (List.replicate places.length false) 0 true hlen
    simp only [nnInit, hn]
    rw [show ((0 : Nat) : Int) = (0 : Int) from rfl] at hset
    rw [hn] at hset
    rw [hset]
    rfl
  · refine ⟨by simp, ⟨0, rfl, by omega⟩, rfl, ?_, by simp, rfl, rfl, ?_⟩
    · intro x hx
      rw [List.mem_singleton] at hx
      exact ⟨0, by simpa using hx, by omega⟩
    · intro j hj
      have hjlen : j < (List.replicate n false).length := by simp; omega
      rw [List.get?_set]
      rcases eq_or_ne 0 j with h0 | h0
      · subst h0
        rw [if_pos rfl, List.get?_eq_get hjlen, List.get_replicate]
        simp
      · rw [if_neg h0, List.get?_eq_get hjlen, List.get_replicate]
        constructor
        · intro h; exact absurd h (by simp)
        · intro h
          rw [List.mem_singleton] at h
          have : j = 0 := by exact_mod_cast h
          omega

theorem nnStep_spec (matrix : List (List ℚ)) (n k : Nat) (st : NNState)
    (i : Nat) (hm : matrix.length = n)
    (hrow : ∀ row ∈ matrix, row.length = n)
    (hinv : NNInv n k st) (hk : k + 1 < n) :
    ∃ st', nnStep matrix st i = some st' ∧ NNInv n (k + 1) st' := by
  have hex := nn_unvisited_exists n k st hinv hk
  obtain ⟨hvlen, ⟨c, hcur, hc⟩, hrolen, hromem, hronodup, hrohead, hrolast,
    hiff⟩ := hinv
  obtain ⟨nr, hfn, hnrn, hnrf⟩ :=
    find_nearest_unvisited_spec matrix st.visited c n hm hrow hvlen hc hex
  have hclen : c < matrix.length := by omega
  obtain ⟨row, hrowget⟩ : ∃ r, pyGetIdx matrix (c : Int) = some r := by
    rw [pyGetIdx_ofNat]
    exact ⟨matrix.get ⟨c, hclen⟩, List.get?_eq_get hclen⟩
  have hrowlen : row.length = n := by
    apply hrow
    rw [pyGetIdx_ofNat] at hrowget
    exact List.get?_mem hrowget
  have hnrlen : nr < row.length := by omega
  obtain ⟨d, hdget⟩ : ∃ x, pyGetIdx row ((nr : Nat) : Int) = some x := by
    rw [pyGetIdx_ofNat]
    exact ⟨row.get ⟨nr, hnrlen⟩, List.get?_eq_get hnrlen⟩
  have hsetlen : nr < st.visited.length := by omega
  have hset := pySetIdx_ofNat st.visited nr true hsetlen
  have hnrmem : ((nr : Nat) : Int) ∉ st.route_order := by
    intro hmem
    have := (hiff nr hnrn).2 hmem
    rw [hnrf] at this
    exact absurd this (by simp)
  refine ⟨NNState.mk (st.visited.set nr true)
    (st.route_order ++ [((nr : Nat) : Int)]) ((nr : Nat) : Int)
    (st.total_distance + d), ?_, ?_⟩
  · simp [nnStep, hcur, hfn, hrowget, hdget, hset]
  · refine ⟨by simpa using hvlen, ⟨nr, rfl, hnrn⟩, ?_, ?_, ?_, ?_, ?_, ?_⟩
    · simp [hrolen]
    · intro x hx
      rcases List.mem_append.1 hx with h | h
      · exact hromem x h
      · rw [List.mem_singleton] at h
        exact ⟨nr, h, hnrn⟩
    · rw [List.nodup_append]
      exact ⟨hronodup, List.nodup_singleton _,
        fun x hx hx' => by
          rw [List.mem_singleton] at hx'
          rw [hx'] at hx
          exact hnrmem hx⟩
    · rw [List.head?_append, hrohead]
      rfl
    · rw [List.getLast?_append]
      rfl
    · intro j hj
      rw [List.get?_set, List.mem_append, List.mem_singleton]
      rcases eq_or_ne nr j with h0 | h0
      · subst h0
        rw [if_pos rfl, hnrf]
        simp
      · rw [if_neg h0, hiff j hj]
        constructor
        · exact fun h => Or.inl h
        · rintro (h | h)
          · exact h
          · have : j = nr := by exact_mod_cast h
            omega

theorem nnIter_succ (places : List Place) (matrix : List (List ℚ)) (k : Nat) :
    nnIter places matrix (k + 1)
      = (nnIter places matrix k).bind (fun st => nnStep matrix st k) := by
  simp only [nnIter]
  cases nnInit places with
  | none => rfl
  | some st0 =>
      show (List.range (k + 1)).foldlM (nnStep matrix) st0
        = ((List.range k).foldlM (nnStep matrix) st0).bind
            (fun st => nnStep matrix st k)
      rw [List.range_succ, List.foldlM_append]
      congr 1
      funext s
      simp [List.foldlM_cons, List.foldlM_nil]

theorem nnIter_spec (places : List Place) (matrix : List (List ℚ)) (n : Nat)
    (hn : places.length = n) (h2 : 2 ≤ n)
    (hm : matrix.length = n) (hrow : ∀ row ∈ matrix, row.length = n) :
    ∀ k, k ≤ n - 1 → ∃ st, nnIter places matrix k = some st ∧ NNInv n k st := by
  intro k
  induction k with
  | zero =>
      intro _
      obtain ⟨hinit, hinv⟩ := nnInit_spec places n hn (by omega)
      refine ⟨_, ?_, hinv⟩
      simp only [nnIter, hinit, Option.some_bind]
      rfl
  | succ k ih =>
      intro hk
      obtain ⟨st, hst, hinv⟩ := ih (by omega)
      obtain ⟨st', hstep, hinv'⟩ := nnStep_spec matrix n k st k hm hrow hinv
        (by omega)
      refine ⟨st', ?_, hinv'⟩
      rw [nnIter_succ, hst, Option.some_bind, hstep]

theorem routeIds_spec (places : List Place) :
    ∀ ro : List Int,
      (∀ x ∈ ro, ∃ j : Nat, x = (j : Int) ∧ j < places.length) →
      routeIds places ro
        = some (ro.map (fun x => (places.getD x.toNat defaultPlace).id)) := by
  intro ro
  induction ro with
  | nil => intro _; rfl
  | cons x rest ih =>
      intro h
      obtain ⟨j, hxj, hj⟩ := h x (List.mem_cons_self _ _)
      subst hxj
      have hpg : pyGetIdx places ((j : Nat) : Int)
          = some (places.getD j defaultPlace) := by
        rw [pyGetIdx_ofNat, List.get?_eq_get hj, List.getD_eq_getElem _ _ hj]
        rfl
      have hrest := ih (fun y hy => h y (List.mem_cons_of_mem _ hy))
      simp [routeIds, hpg, hrest]

theorem range_map_getD {β : Type} (l : List Place) (f : Place → β)
    (d : Place) :
    (List.range l.length).map (fun j => f (l.getD j d)) = l.map f := by
  apply List.ext_getElem
  · simp
  · intro i h1 h2
    simp only [List.getElem_map, List.getElem_range]
    have hi : i < l.length := by simpa using h2
    rw [List.getD_eq_getElem _ _ hi]

theorem nn_solve_struct (places : List Place) (matrix : List (List ℚ))
    (constraints : Option (List (String × PyVal))) (n : Nat)
    (hn : places.length = n) (h2 : 2 ≤ n)
    (hm : matrix.length = n) (hrow : ∀ row ∈ matrix, row.length = n) :
    ∃ st r, nnIter places matrix (n - 1) = some st ∧ NNInv n (n - 1) st
      ∧ NearestNeighborAlgorithm.solve places matrix constraints = some r
      ∧ r.places_order
          = st.route_order.map (fun x => (places.getD x.toNat defaultPlace).id)
            ++ (if nn_return_to_start constraints
                then [(places.getD 0 defaultPlace).id] else []) := by
  obtain ⟨st, hst, hinv⟩ := nnIter_spec places matrix n hn h2 hm hrow (n - 1)
    le_rfl
  have hinv2 := hinv
  obtain ⟨hvlen, ⟨c, hcur, hc⟩, hrolen, hromem, hronodup, hrohead, hrolast,
    hiff⟩ := hinv2
  have hromem' : ∀ x ∈ st.route_order, ∃ j : Nat, x = (j : Int)
      ∧ j < places.length := by
    intro x hx
    obtain ⟨j, hxj, hj⟩ := hromem x hx
    exact ⟨j, hxj, by omega⟩
  cases hrts : nn_return_to_start constraints with
  | false =>
      refine ⟨st, Route.mk
        (st.route_order.map (fun x => (places.getD x.toNat defaultPlace).id))
        st.total_distance "nearest_neighbor", hst, hinv, ?_, by simp⟩
      have hids := routeIds_spec places st.route_order hromem'
      simp [NearestNeighborAlgorithm.solve, hn, hst, hrts, hids]
  | true =>
      have hclen : c < matrix.length := by omega
      obtain ⟨row, hrowget⟩ : ∃ r, pyGetIdx matrix (c : Int) = some r := by
        rw [pyGetIdx_ofNat]
        exact ⟨matrix.get ⟨c, hclen⟩, List.get?_eq_get hclen⟩
      have hrowlen : row.length = n := by
        apply hrow
        rw [pyGetIdx_ofNat] at hrowget
        exact List.get?_mem hrowget
      have h0len : 0 < row.length := by omega
      obtain ⟨d, hdget⟩ : ∃ x, pyGetIdx row (0 : Int) = some x := by
        rw [show (0 : Int) = ((0 : Nat) : Int) from rfl, pyGetIdx_ofNat]
        exact ⟨row.get ⟨0, h0len⟩, List.get?_eq_get h0len⟩
      have hmem2 : ∀ x ∈ st.route_order ++ [(0 : Int)],
          ∃ j : Nat, x = (j : Int) ∧ j < places.length := by
        intro x hx
        rcases List.mem_append.1 hx with h | h
        · exact hromem' x h
        · rw [List.mem_singleton] at h
          exact ⟨0, by simpa using h, by omega⟩
      have hids := routeIds_spec places (st.route_order ++ [(0 : Int)]) hmem2
      refine ⟨st, Route.mk
        ((st.route_order ++ [(0 : Int)]).map
          (fun x => (places.getD x.toNat defaultPlace).id))
        (st.total_distance + d) "nearest_neighbor", hst, hinv, ?_, ?_⟩
      · simp [NearestNeighborAlgorithm.solve, hn, hst, hrts, hcur, hrowget,
          hdget, hids]
      · simp

/-- C5: for n >= 2 places and an n-by-n matrix of (finite) non-negative
rationals, the nearest-neighbor route visits every input place exactly once —
its identifier list is a permutation of the input identifier list (so each of
the n identifiers appears exactly once when they are distinct) — plus one
trailing repeat of the start identifier when the tour is closed; the length
is exactly n, or n + 1 in the closed case. -/
theorem nn_solve_visits_every_place (places : List Place)
    (matrix : List (List ℚ)) (constraints : Option (List (String × PyVal)))
    (n : Nat) (hn : places.length = n) (h2 : 2 ≤ n)
    (hm : matrix.length = n) (hrow : ∀ row ∈ matrix, row.length = n)
    (hpos : ∀ row ∈ matrix, ∀ x ∈ row, 0 ≤ x)
    (hids : (places.map Place.id).Nodup) :
    ∃ r, NearestNeighborAlgorithm.solve places matrix constraints = some r
      ∧ ∃ core : List String, core.Perm (places.map Place.id)
        ∧ (∀ s ∈ places.map Place.id, core.count s = 1)
        ∧ (if nn_return_to_start constraints then
            r.places_order = core ++ [(places.getD 0 defaultPlace).id]
              ∧ r.places_order.length = n + 1
          else r.places_order = core ∧ r.places_order.length = n) := by
  obtain ⟨st, r, hst, hinv, hsolve, hord⟩ :=
    nn_solve_struct places matrix constraints n hn h2 hm hrow
  obtain ⟨hvlen, _, hrolen, hromem, hronodup, _, _, _⟩ := hinv
  have hrolen' : st.route_order.length = n := by omega
  have hsub : st.route_order
      ⊆ (List.range n).map (fun j : Nat => (j : Int)) := by
    intro x hx
    obtain ⟨j, hxj, hj⟩ := hromem x hx
    rw [hxj]
    exact List.mem_map.2 ⟨j, by simpa using hj, rfl⟩
  have hperm : st.route_order.Perm
      ((List.range n).map (fun j : Nat => (j : Int))) := by
    apply (hronodup.subperm hsub).perm_of_length_le
    simp [hrolen']
  have hequal : ((List.range n).map (fun j : Nat => (j : Int))).map
      (fun x => (places.getD x.toNat defaultPlace).id)
      = places.map Place.id := by
    rw [List.map_map]
    have hfun : ((fun x : Int => (places.getD x.toNat defaultPlace).id)
        ∘ fun j : Nat => (j : Int))
        = fun j : Nat => (places.getD j defaultPlace).id := by
      funext j
      simp
    rw [hfun, ← hn]
    exact range_map_getD places Place.id defaultPlace
  have hcoreperm : (st.route_order.map
      (fun x => (places.getD x.toNat defaultPlace).id)).Perm
      (places.map Place.id) := by
    have := hperm.map (fun x => (places.getD x.toNat defaultPlace).id)
    rwa [hequal] at this
  refine ⟨r, hsolve,
    st.route_order.map (fun x => (places.getD x.toNat defaultPlace).id),
    hcoreperm, ?_, ?_⟩
  · intro s hs
    rw [hcoreperm.count_eq]
    exact List.count_eq_one_of_mem hids hs
  · cases hrts : nn_return_to_start constraints with
    | false =>
        rw [hrts] at hord
        rw [if_neg (by simp : ¬ (false = true))] at hord
        rw [if_neg (by simp : ¬ (false = true))]
        rw [List.append_nil] at hord
        exact ⟨hord, by rw [hord]; simp [hrolen']⟩
    | true =>
        rw [hrts] at hord
        rw [if_pos rfl] at hord
        rw [if_pos rfl]
        exact ⟨hord, by rw [hord]; simp [hrolen']⟩

/-- Witness for C5: three places, a concrete 3-by-3 matrix and an explicit
`return_to_start` constraint. -/
theorem nn_solve_visits_every_place_witness :
    (([placeA, placeB, placeC] : List Place).length = 3
        ∧ 2 ≤ 3
        ∧ ([[0, 2, 1], [2, 0, 3], [1, 3, 0]] : List (List ℚ)).length = 3
        ∧ (∀ row ∈ ([[0, 2, 1], [2, 0, 3], [1, 3, 0]] : List (List ℚ)),
            row.length = 3)
        ∧ (∀ row ∈ ([[0, 2, 1], [2, 0, 3], [1, 3, 0]] : List (List ℚ)),
            ∀ x ∈ row, 0 ≤ x)
        ∧ (([placeA, placeB, placeC] : List Place).map Place.id).Nodup)
      ∧ ∃ r, NearestNeighborAlgorithm.solve [placeA, placeB, placeC]
            [[0, 2, 1], [2, 0, 3], [1, 3, 0]]
            (some [("return_to_start", PyVal.bool true)]) = some r
          ∧ ∃ core : List String,
              core.Perm (([placeA, placeB, placeC] : List Place).map Place.id)
            ∧ (∀ s ∈ ([placeA, placeB, placeC] : List Place).map Place.id,
                core.count s = 1)
            ∧ (if nn_return_to_start
                  (some [("return_to_start", PyVal.bool true)]) then
                r.places_order = core
                    ++ [(([placeA, placeB, placeC] : List Place).getD 0
                        defaultPlace).id]
                  ∧ r.places_order.length = 3 + 1
              else r.places_order = core ∧ r.places_order.length = 3) :=
  ⟨⟨by decide, by decide, by decide, by decide, by decide, by decide⟩,
   nn_solve_visits_every_place [placeA, placeB, placeC]
     [[0, 2, 1], [2, 0, 3], [1, 3, 0]]
     (some [("return_to_start", PyVal.bool true)]) 3 (by decide) (by decide)
     (by decide) (by decide) (by decide) (by decide)⟩

/-- C10: under the precondition (n >= 2 places, n-by-n matrix of finite
non-negative entries) `NearestNeighborAlgorithm.solve` has no failure mode —
the `Option`-modelled run (in which every out-of-range list access is an
error) returns a route — and at each of the n - 1 greedy steps at least one
unvisited index remains and `_find_nearest_unvisited` returns an in-range
unvisited index, never its `-1` sentinel. -/
theorem nn_solve_no_failure_modes (places : List Place)
    (matrix : List (List ℚ)) (constraints : Option (List (String × PyVal)))
    (n : Nat) (hn : places.length = n) (h2 : 2 ≤ n)
    (hm : matrix.length = n) (hrow : ∀ row ∈ matrix, row.length = n)
    (hpos : ∀ row ∈ matrix, ∀ x ∈ row, 0 ≤ x) :
    (∃ r, NearestNeighborAlgorithm.solve places matrix constraints = some r)
      ∧ (∀ k, k < n - 1 →
          ∃ st, nnIter places matrix k = some st
            ∧ (∃ j, j < n ∧ st.visited.get? j = some false)
            ∧ (∃ nearest : Nat,
                find_nearest_unvisited st.current matrix st.visited
                    = some ((nearest : Nat) : Int)
                  ∧ ((nearest : Nat) : Int) ≠ -1 ∧ nearest < n
                  ∧ st.visited.get? nearest = some false)) := by
  constructor
  · obtain ⟨st, r, _, _, hsolve, _⟩ :=
      nn_solve_struct places matrix constraints n hn h2 hm hrow
    exact ⟨r, hsolve⟩
  · intro k hk
    obtain ⟨st, hst, hinv⟩ := nnIter_spec places matrix n hn h2 hm hrow k
      (by omega)
    have hex := nn_unvisited_exists n k st hinv (by omega)
    obtain ⟨hvlen, ⟨c, hcur, hc⟩, _, _, _, _, _, _⟩ := hinv
    obtain ⟨nr, hfn, hnrn, hnrf⟩ :=
      find_nearest_unvisited_spec matrix st.visited c n hm hrow hvlen hc hex
    refine ⟨st, hst, hex, nr, ?_, by omega, hnrn, hnrf⟩
    rw [hcur]
    exact hfn

/-- Witness for C10 on the same concrete three-place input. -/
theorem nn_solve_no_failure_modes_witness :
    (([placeA, placeB, placeC] : List Place).length = 3
        ∧ 2 ≤ 3
        ∧ ([[0, 2, 1], [2, 0, 3], [1, 3, 0]] : List (List ℚ)).length = 3
        ∧ (∀ row ∈ ([[0, 2, 1], [2, 0, 3], [1, 3, 0]] : List (List ℚ)),
            row.length = 3)
        ∧ (∀ row ∈ ([[0, 2, 1], [2, 0, 3], [1, 3, 0]] : List (List ℚ)),
            ∀ x ∈ row, 0 ≤ x))
      ∧ ((∃ r, NearestNeighborAlgorithm.solve [placeA, placeB, placeC]
              [[0, 2, 1], [2, 0, 3], [1, 3, 0]] none = some r)
          ∧ (∀ k, k < 3 - 1 →
              ∃ st, nnIter [placeA, placeB, placeC]
                  [[0, 2, 1], [2, 0, 3], [1, 3, 0]] k = some st
                ∧ (∃ j, j < 3 ∧ st.visited.get? j = some false)
                ∧ (∃ nearest : Nat,
                    find_nearest_unvisited st.current
                        [[0, 2, 1], [2, 0, 3], [1, 3, 0]] st.visited
                        = some ((nearest : Nat) : Int)
                      ∧ ((nearest : Nat) : Int) ≠ -1 ∧ nearest < 3
                      ∧ st.visited.get? nearest = some false))) :=
  ⟨⟨by decide, by decide, by decide, by decide, by decide⟩,
   nn_solve_no_failure_modes [placeA, placeB, placeC]
     [[0, 2, 1], [2, 0, 3], [1, 3, 0]] none 3 (by decide) (by decide)
     (by decide) (by decide) (by decide)⟩

/-! ### Claim C6: order crossover produces pinned-start permutations -/

theorem filterMap_id_length_add_count (l : List (Option Nat)) :
    (l.filterMap id).length + l.count none = l.length := by
  induction l with
  | nil => rfl
  | cons a t ih =>
      cases a with
      | none =>
          simp [List.count_cons]
          omega
      | some v =>
          simp [List.count_cons]
          omega

theorem mem_filterMap_id (l : List (Option Nat)) (v : Nat) :
    v ∈ l.filterMap id ↔ some v ∈ l := by
  rw [List.mem_filterMap]
  constructor
  · rintro ⟨a, ha, hav⟩
    rw [show a = some v from hav] at ha
    exact ha
  · intro h
    exact ⟨some v, h, rfl⟩

theorem mem_set_of_get_ne (l : List (Option Nat)) (x b : Option Nat) :
    ∀ i : Nat, b ∈ l → l.get? i ≠ some b → b ∈ l.set i x := by
  induction l with
  | nil => intro i hb _; exact absurd hb (List.not_mem_nil b)
  | cons a t ih =>
      intro i hb hne
      cases i with
      | zero =>
          rcases List.mem_cons.1 hb with h | h
          · exact absurd (by rw [h] ; rfl : (a :: t).get? 0 = some b) hne
          · exact List.mem_cons_of_mem _ h
      | succ i =>
          rcases List.mem_cons.1 hb with h | h
          · rw [h]; exact List.mem_cons_self _ _
          · exact List.mem_cons_of_mem _ (ih i h (by simpa using hne))

theorem filterMap_id_set_none (v : Nat) :
    ∀ (l : List (Option Nat)) (i : Nat), l.get? i = some none →
      ((l.set i (some v)).filterMap id).Perm (v :: l.filterMap id) := by
  intro l
  induction l with
  | nil => intro i h; simp at h
  | cons a t ih =>
      intro i h
      cases i with
      | zero =>
          have ha : a = none := by simpa using h
          subst ha
          simp
      | succ i =>
          have ht := ih i (by simpa using h)
          cases a with
          | none => simpa using ht
          | some w =>
              have hl : ((some w :: t).set (i + 1) (some v)).filterMap id
                  = w :: (t.set i (some v)).filterMap id := by simp
              have hr : (some w :: t).filterMap id = w :: t.filterMap id := by
                simp
              rw [hl, hr]
              exact (ht.cons w).trans (List.Perm.swap v w _)

theorem extractFilled_spec :
    ∀ l : List (Option Nat), (∀ j, j < l.length → l.get? j ≠ some none) →
      extractFilled l = some (l.filterMap id) := by
  intro l
  induction l with
  | nil => intro _; rfl
  | cons a t ih =>
      intro h
      cases a with
      | none =>
          exfalso
          exact h 0 (by simp) rfl
      | some v =>
          have ht := ih (fun j hj => by
            have := h (j + 1) (by simpa using hj)
            simpa using this)
          simp [extractFilled, ht]

theorem segCopy_length (src : List Nat) : ∀ s e : Nat,
    (segCopy src s e).length = src.length := by
  induction src with
  | nil => intro s e; rfl
  | cons a t ih => intro s e; simp [segCopy, ih]

theorem segCopy_filterMap (src : List Nat) : ∀ s e : Nat,
    (segCopy src s e).filterMap id = (src.take e).drop s := by
  induction src with
  | nil => intro s e; simp [segCopy]
  | cons a t ih =>
      intro s e
      cases e with
      | zero =>
          cases s with
          | zero => simp [segCopy, ih]
          | succ s => simp [segCopy, ih]
      | succ e =>
          cases s with
          | zero => simp [segCopy, ih]
          | succ s => simp [segCopy, ih]

theorem skipUsed_none (parent : List Nat) (child : List (Option Nat))
    (pIdx : Nat) (hp : parent.get? pIdx = none) :
    skipUsed parent child pIdx = none := by
  unfold skipUsed
  split
  · rfl
  · rename_i v h
    rw [hp] at h
    cases h

theorem skipUsed_found (parent : List Nat) (child : List (Option Nat))
    (pIdx : Nat) (v : Nat) (hp : parent.get? pIdx = some v)
    (hc : ¬ (some v ∈ child)) : skipUsed parent child pIdx = some pIdx := by
  unfold skipUsed
  split
  · rename_i h
    rw [hp] at h
    cases h
  · rename_i w h
    rw [hp] at h
    injection h with h
    subst h
    rw [if_neg (by simpa using hc)]

theorem skipUsed_skip (parent : List Nat) (child : List (Option Nat))
    (pIdx : Nat) (v : Nat) (hp : parent.get? pIdx = some v)
    (hc : some v ∈ child) :
    skipUsed parent child pIdx = skipUsed parent child (pIdx + 1) := by
  conv_lhs => unfold skipUsed
  split
  · rename_i h
    rw [hp] at h
    cases h
  · rename_i w h
    rw [hp] at h
    injection h with h
    subst h
    rw [if_pos (by simpa using hc)]

theorem skipUsed_spec (parent : List Nat) (child : List (Option Nat)) :
    ∀ fuel pIdx, parent.length - pIdx ≤ fuel →
      ∀ j v, pIdx ≤ j → parent.get? j = some v → some v ∉ child →
      ∃ j' v', skipUsed parent child pIdx = some j' ∧ pIdx ≤ j'
        ∧ parent.get? j' = some v' ∧ some v' ∉ child
        ∧ ∀ k w, pIdx ≤ k → k < j' → parent.get? k = some w →
            some w ∈ child := by
  intro fuel
  induction fuel with
  | zero =>
      intro pIdx hle j v hj hget hnotin
      exfalso
      have hjlen : j < parent.length := List.get?_eq_some.1 hget |>.1
      omega
  | succ fuel ih =>
      intro pIdx hle j v hj hget hnotin
      cases hp : parent.get? pIdx with
      | none =>
          exfalso
          have hjlen : j < parent.length := List.get?_eq_some.1 hget |>.1
          have hplen : parent.length ≤ pIdx := List.get?_eq_none.1 hp
          omega
      | some w =>
          by_cases hw : some w ∈ child
          · have hne : j ≠ pIdx := by
              intro h
              subst h
              rw [hget] at hp
              injection hp with hp
              subst hp
              exact hnotin hw
            have hplen : pIdx < parent.length := List.get?_eq_some.1 hp |>.1
            obtain ⟨j', v', hrec, hj'2, hget', hnotin', hall⟩ :=
              ih (pIdx + 1) (by omega) j v (by omega) hget hnotin
            refine ⟨j', v', ?_, by omega, hget', hnotin', ?_⟩
            · rw [skipUsed_skip parent child pIdx w hp hw]
              exact hrec
            · intro k w2 hk1 hk2 hgetk
              rcases Nat.eq_or_lt_of_le hk1 with h | h
              · rw [h] at hp
                rw [hgetk] at hp
                injection hp with hp
                rw [hp]
                exact hw
              · exact hall k w2 (by omega) hk2 hgetk
          · refine ⟨pIdx, w, skipUsed_found parent child pIdx w hp hw,
              le_refl _, hp, hw, ?_⟩
            intro k w2 hk1 hk2 _
            omega

theorem fillGo_done (parent : List Nat) (child : List (Option Nat))
    (i pIdx : Nat) (h : ¬ i < child.length) :
    fillGo parent child i pIdx = some child := by
  unfold fillGo
  rw [dif_neg h]

theorem fillGo_step_some (parent : List Nat) (child : List (Option Nat))
    (i pIdx : Nat) (h : i < child.length) (w : Nat)
    (hg : child.get ⟨i, h⟩ = some w) :
    fillGo parent child i pIdx = fillGo parent child (i + 1) pIdx := by
  conv_lhs => unfold fillGo
  rw [dif_pos h]
  split
  · rfl
  · rename_i hnone
    rw [hg] at hnone
    cases hnone

theorem fillGo_step_none (parent : List Nat) (child : List (Option Nat))
    (i pIdx : Nat) (h : i < child.length)
    (hg : child.get ⟨i, h⟩ = none) (j v : Nat)
    (hskip : skipUsed parent child pIdx = some j)
    (hpar : parent.get? j = some v) :
    fillGo parent child i pIdx
      = fillGo parent (child.set i (some v)) (i + 1) (j + 1) := by
  conv_lhs => unfold fillGo
  rw [dif_pos h]
  split
  · rename_i w hsome
    rw [hg] at hsome
    cases hsome
  · rw [hskip]
    show (match parent.get? j with
      | none => none
      | some v => fillGo parent (child.set i (some v)) (i + 1) (j + 1))
      = fillGo parent (child.set i (some v)) (i + 1) (j + 1)
    rw [hpar]

theorem fillGo_done_spec (parent : List Nat) (hpn : parent.Nodup)
    (child : List (Option Nat)) (i pIdx : Nat)
    (hterm : ¬ i < child.length)
    (hlen : child.length = parent.length)
    (hnodup : (child.filterMap id).Nodup)
    (hsub : ∀ v ∈ child.filterMap id, v ∈ parent)
    (hfilled : ∀ j, j < i → child.get? j ≠ some none) :
    ∃ out, fillGo parent child i pIdx = some out
      ∧ out.length = parent.length
      ∧ (∀ j, j < out.length → out.get? j ≠ some none)
      ∧ (out.filterMap id).Perm parent := by
  refine ⟨child, fillGo_done parent child i pIdx hterm, hlen, ?_, ?_⟩
  · intro j hj
    exact hfilled j (by omega)
  · have hzero : child.count none = 0 := by
      by_contra h0
      have hmem : none ∈ child := by
        have := Nat.pos_of_ne_zero h0
        exact List.count_pos_iff_mem.1 this
      obtain ⟨p, hp, hpeq⟩ := List.getElem_of_mem hmem
      exact hfilled p (by omega) (by rw [List.get?_eq_get hp, List.get_eq_getElem, hpeq])
    have hcnt := filterMap_id_length_add_count child
    rw [hzero] at hcnt
    exact ((hnodup.subperm fun v hv => hsub v hv).perm_of_length_le (by omega))

theorem fillGo_spec (parent : List Nat) (hpn : parent.Nodup) :
    ∀ fuel (child : List (Option Nat)) (i pIdx : Nat),
      child.length - i ≤ fuel →
      child.length = parent.length →
      (child.filterMap id).Nodup →
      (∀ v ∈ child.filterMap id, v ∈ parent) →
      (∀ k w, k < pIdx → parent.get? k = some w → some w ∈ child) →
      (∀ j, j < i → child.get? j ≠ some none) →
      ∃ out, fillGo parent child i pIdx = some out
        ∧ out.length = parent.length
        ∧ (∀ j, j < out.length → out.get? j ≠ some none)
        ∧ (out.filterMap id).Perm parent := by
  intro fuel
  induction fuel with
  | zero =>
      intro child i pIdx hfuel hlen hnodup hsub hbefore hfilled
      exact fillGo_done_spec parent hpn child i pIdx (by omega) hlen hnodup
        hsub hfilled
  | succ fuel ih =>
      intro child i pIdx hfuel hlen hnodup hsub hbefore hfilled
      by_cases h : i < child.length
      case neg =>
          exact fillGo_done_spec parent hpn child i pIdx h hlen hnodup hsub
            hfilled
      case pos =>
      cases hg : child.get ⟨i, h⟩ with
      | some w =>
          rw [fillGo_step_some parent child i pIdx h w hg]
          apply ih child (i + 1) pIdx (by omega) hlen hnodup hsub hbefore
          intro j hj
          rcases Nat.lt_succ_iff_lt_or_eq.1 hj with h' | h'
          · exact hfilled j h'
          · subst h'
            rw [List.get?_eq_get h, hg]
            simp
      | none =>
          have hgq : child.get? i = some none := by
            rw [List.get?_eq_get h, hg]
          have hnonemem : none ∈ child := List.get?_mem hgq
          have hcpos : 0 < child.count none := List.count_pos_iff_mem.2 hnonemem
          have hcnt := filterMap_id_length_add_count child
          have hlt : (child.filterMap id).length < parent.length := by omega
          have hmiss : ∃ v ∈ parent, some v ∉ child := by
            by_contra hco
            push_neg at hco
            have hsub2 : parent ⊆ child.filterMap id := by
              intro v hv
              rw [mem_filterMap_id]
              exact hco v hv
            have := (hpn.subperm hsub2).length_le
            omega
          obtain ⟨v0, hv0p, hv0n⟩ := hmiss
          obtain ⟨jv, hjvlen, hjveq⟩ := List.getElem_of_mem hv0p
          have hjvget : parent.get? jv = some v0 := by
            rw [List.get?_eq_get hjvlen, List.get_eq_getElem, hjveq]
          have hjvge : pIdx ≤ jv := by
            by_contra hco
            exact hv0n (hbefore jv v0 (by omega) hjvget)
          obtain ⟨j', v', hskip, hj'ge, hget', hnotin', hall⟩ :=
            skipUsed_spec parent child (parent.length - pIdx) pIdx (le_refl _)
              jv v0 hjvge hjvget hv0n
          rw [fillGo_step_none parent child i pIdx h hg j' v' hskip hget']
          have hpermset := filterMap_id_set_none v' child i hgq
          have hsetget : (child.set i (some v')).get? i = some (some v') := by
            rw [List.get?_set]
            rw [if_pos rfl, hgq]
            rfl
          apply ih (child.set i (some v')) (i + 1) (j' + 1)
          · simp only [List.length_set]
            omega
          · simp only [List.length_set]
            exact hlen
          · rw [hpermset.nodup_iff]
            refine List.nodup_cons.2 ⟨?_, hnodup⟩
            rw [mem_filterMap_id]
            exact hnotin'
          · intro v hv
            have : v ∈ v' :: child.filterMap id := hpermset.subset hv
            rcases List.mem_cons.1 this with h' | h'
            · rw [h']
              exact List.get?_mem hget'
            · exact hsub v h'
          · intro k w hk hkget
            rcases Nat.lt_succ_iff_lt_or_eq.1 hk with h' | h'
            · have hwchild : some w ∈ child := by
                by_cases hkp : k < pIdx
                · exact hbefore k w hkp hkget
                · exact hall k w (by omega) h' hkget
              apply mem_set_of_get_ne child (some v') (some w) i hwchild
              rw [hgq]
              simp
            · subst h'
              rw [hget'] at hkget
              injection hkget with hkget
              rw [← hkget]
              exact List.get?_mem hsetget
          · intro j hj
            rcases Nat.lt_succ_iff_lt_or_eq.1 hj with h' | h'
            · rw [List.get?_set, if_neg (by omega)]
              exact hfilled j h'
            · subst h'
              rw [hsetget]
              simp

theorem filter_ne_eq_erase_range (n s : Nat) :
    (List.range n).filter (fun c => c ≠ s) = (List.range n).erase s := by
  rw [(List.nodup_range n).erase_eq_filter]
  congr 1
  funext c
  simp [bne, beq_eq_decide]

theorem fill_pipeline_spec (p child : List Nat) (cs ce : Nat)
    (hlen : child.length = p.length)
    (hnd : child.Nodup) (hpnd : p.Nodup)
    (hsub : ∀ v ∈ child, v ∈ p) :
    ∃ r, fill_remaining_positions (segCopy child cs ce) p = some r
      ∧ ∃ ids, extractFilled r = some ids ∧ ids.Perm p := by
  have hseglen : (segCopy child cs ce).length = p.length := by
    rw [segCopy_length]; exact hlen
  have hsegfm := segCopy_filterMap child cs ce
  have hsegsl : List.Sublist ((child.take ce).drop cs) child :=
    ((child.take ce).drop_sublist cs).trans (child.take_sublist ce)
  have hsegnd : ((segCopy child cs ce).filterMap id).Nodup := by
    rw [hsegfm]
    exact hnd.sublist hsegsl
  have hsegsub : ∀ v ∈ (segCopy child cs ce).filterMap id, v ∈ p := by
    intro v hv
    rw [hsegfm] at hv
    exact hsub v (hsegsl.subset hv)
  obtain ⟨out, hout, houtlen, houtfilled, houtperm⟩ :=
    fillGo_spec p hpnd (segCopy child cs ce).length (segCopy child cs ce) 0 0
      (by omega) hseglen hsegnd hsegsub (by omega) (by omega)
  refine ⟨out, hout, out.filterMap id, ?_, houtperm⟩
  exact extractFilled_spec out houtfilled

/-- C6: for parents that are permutations of `0..n-1` beginning with the
pinned start index, and for every choice of the two sorted random cut points
(`cs < ce < n - 1`, the range `random.sample(range(n-1), 2)` can produce),
both children of `GeneticAlgorithm._order_crossover` begin with the pinned
start index and are duplicate-free permutations of the full index set. -/
theorem ga_order_crossover_permutation (parent1 parent2 : List Nat)
    (s n cs ce : Nat)
    (h1 : parent1.Perm (List.range n)) (h2 : parent2.Perm (List.range n))
    (hh1 : parent1.head? = some s) (hh2 : parent2.head? = some s)
    (hcs : cs < ce) (hce : ce < n - 1) :
    ∃ c1 c2, order_crossover parent1 parent2 s cs ce = some (c1, c2)
      ∧ c1.head? = some s ∧ c2.head? = some s
      ∧ c1.Perm (List.range n) ∧ c2.Perm (List.range n) := by
  have hs1 : s ∈ parent1 := by
    cases parent1 with
    | nil => cases hh1
    | cons a t =>
        have : a = s := by simpa using hh1
        rw [← this]
        exact List.mem_cons_self _ _
  have hsn : s < n := by
    have := h1.subset hs1
    simpa using this
  have hsr : s ∈ List.range n := by simpa using hsn
  have hrangend : ((List.range n).filter (fun c => c ≠ s)).Nodup :=
    (List.nodup_range n).filter _
  have hrangelen : ((List.range n).filter (fun c => c ≠ s)).length = n - 1 := by
    rw [filter_ne_eq_erase_range]
    rw [List.length_erase_of_mem hsr]
    simp
  have hrangeperm : (List.range n).Perm
      (s :: (List.range n).filter (fun c => c ≠ s)) := by
    rw [filter_ne_eq_erase_range]
    exact List.perm_cons_erase hsr
  have hp1perm : (parent1.filter (fun c => c ≠ s)).Perm
      ((List.range n).filter (fun c => c ≠ s)) := h1.filter _
  have hp2perm : (parent2.filter (fun c => c ≠ s)).Perm
      ((List.range n).filter (fun c => c ≠ s)) := h2.filter _
  have hp1len : (parent1.filter (fun c => c ≠ s)).length = n - 1 := by
    rw [hp1perm.length_eq, hrangelen]
  have hp2len : (parent2.filter (fun c => c ≠ s)).length = n - 1 := by
    rw [hp2perm.length_eq, hrangelen]
  have hp1nd : (parent1.filter (fun c => c ≠ s)).Nodup :=
    hp1perm.nodup_iff.2 hrangend
  have hp2nd : (parent2.filter (fun c => c ≠ s)).Nodup :=
    hp2perm.nodup_iff.2 hrangend
  obtain ⟨out1, hfill1, r1, hex1, hperm1⟩ :=
    fill_pipeline_spec (parent2.filter (fun c => c ≠ s))
      (parent1.filter (fun c => c ≠ s)) cs ce (by omega) hp1nd hp2nd
      (fun v hv => hp2perm.symm.subset (hp1perm.subset hv))
  obtain ⟨out2, hfill2, r2, hex2, hperm2⟩ :=
    fill_pipeline_spec (parent1.filter (fun c => c ≠ s))
      (parent2.filter (fun c => c ≠ s)) cs ce (by omega) hp2nd hp1nd
      (fun v hv => hp1perm.symm.subset (hp2perm.subset hv))
  refine ⟨s :: r1, s :: r2, ?_, rfl, rfl, ?_, ?_⟩
  · simp only [order_crossover]
    rw [if_neg (by omega : ¬ (parent1.filter (fun c => c ≠ s)).length < 2)]
    simp only [ne_eq, decide_not] at hfill1 hfill2
    simp [hfill1, hfill2, hex1, hex2]
  · exact ((hperm1.trans hp2perm).cons s).trans hrangeperm.symm
  · exact ((hperm2.trans hp1perm).cons s).trans hrangeperm.symm

/-- Witness for C6: two concrete five-city parents with pinned start 0 and
cut points 1 and 3. -/
theorem ga_order_crossover_permutation_witness :
    (([0, 1, 2, 3, 4] : List Nat).Perm (List.range 5)
        ∧ ([0, 4, 3, 2, 1] : List Nat).Perm (List.range 5)
        ∧ ([0, 1, 2, 3, 4] : List Nat).head? = some 0
        ∧ ([0, 4, 3, 2, 1] : List Nat).head? = some 0
        ∧ 1 < 3 ∧ 3 < 5 - 1)
      ∧ ∃ c1 c2, order_crossover [0, 1, 2, 3, 4] [0, 4, 3, 2, 1] 0 1 3
            = some (c1, c2)
          ∧ c1.head? = some 0 ∧ c2.head? = some 0
          ∧ c1.Perm (List.range 5) ∧ c2.Perm (List.range 5) :=
  ⟨⟨by decide, by decide, by decide, by decide, by decide, by decide⟩,
   ga_order_crossover_permutation [0, 1, 2, 3, 4] [0, 4, 3, 2, 1] 0 5 1 3
     (by decide) (by decide) (by decide) (by decide) (by decide) (by decide)⟩
